import Mathlib

/-!
Verification of the bespoke logic of the two Flask variants in this
repository (`src/anuncio` and `src/asset_manager`): the slug generator
with its collision-retry loop, the save paths of the `Asset` model, the
`is_safe_url` redirect guard, the signup/login flows, and the public
asset listing.  Machinery from outside the repository (Python's `re`,
`urllib.parse`, the decimal rendering of f-strings) is embedded from its
documented behaviour; everything else is translated from the repository
sources.
-/

/-! # Definitions -/

/-! ## The slug normalizer of `anuncio/models.py` (`_simple_slugify`) -/

/-- Characters matched by Python's `re` class `\s` on ASCII text, as used by
the patterns `[^\w\s-]` and `[-\s]+` in `_simple_slugify`
(`anuncio/models.py`, lines 13-18). -/
def pyIsSpace (c : Char) : Bool :=
  c = ' ' || c = '\t' || c = '\n' || c.toNat = 11 || c.toNat = 12 || c = '\r' ||
  (28 ≤ c.toNat && c.toNat ≤ 31)

/-- Characters matched by Python's `re` class `\w` on ASCII text: letters,
digits and the underscore.  These survive the deletion pass
`re.sub(r'[^\w\s-]', '', text)` of `_simple_slugify`. -/
def pyIsWord (c : Char) : Bool :=
  c.isAlpha || c.isDigit || c = '_'

/-- A character that the pass `re.sub(r'[-\s]+', '-', text)` collapses into
a hyphen. -/
def isDashSpace (c : Char) : Bool := c = '-' || pyIsSpace c

/-- Replace every maximal run of characters satisfying `p` by one single
hyphen; the boolean flag records whether the previous character belonged to
such a run.  With `p := isDashSpace` this is the effect of
`re.sub(r'[-\s]+', '-', text)`. -/
def collapseGo (p : Char → Bool) : Bool → List Char → List Char
  | _, [] => []
  | inRun, c :: rest =>
    cond (p c)
      (cond inRun (collapseGo p true rest) ('-' :: collapseGo p true rest))
      (c :: collapseGo p false rest)

/-- Python `str.strip('-')`: drop the leading and the trailing hyphens. -/
def stripDashes (l : List Char) : List Char :=
  ((l.dropWhile (fun c => c = '-')).reverse.dropWhile (fun c => c = '-')).reverse

/-- Embedding of `_simple_slugify` from `anuncio/models.py`: lower-case the
text, delete the characters matching `[^\w\s-]`, collapse every `[-\s]+` run
to a single hyphen, and strip leading/trailing hyphens.  The embedding is
faithful to the Python original on ASCII input, where Lean's `Char.toLower`,
`Char.isAlpha` and `Char.isDigit` agree with Python's `str.lower` and with
the `re` classes `\w` and `\s`. -/
def simple_slugify (s : String) : String :=
  let lowered := s.data.map Char.toLower
  let kept := lowered.filter (fun c => pyIsWord c || pyIsSpace c || c = '-')
  ⟨stripDashes (collapseGo isDashSpace false kept)⟩

/-- The character set `[a-z0-9-]` that the spec asserts for generated
slugs (stated from the spec's words, for comparison with the code). -/
def slugSpecChar (c : Char) : Bool :=
  ('a' ≤ c && c ≤ 'z') || ('0' ≤ c && c ≤ '9') || c = '-'

/-- Modelled from the spec: the asset_manager variant computes its base slug
with the third-party `python_slugify.slugify`, which is not part of this
repository's sources.  Per the spec's contract the base slug is a "URL-safe
lowercase identifier (ASCII letters, digits, hyphens; whitespace and
punctuation collapsed to single hyphens; no leading/trailing hyphens)":
lower-case the text, collapse every run of non-alphanumeric characters to a
single hyphen, and strip leading/trailing hyphens. -/
def slugify (s : String) : String :=
  ⟨stripDashes (collapseGo (fun c => !c.isAlphanum) false (s.data.map Char.toLower))⟩

/-! ## Decimal rendering of the counter suffix

Both variants build their suffixed candidates with the Python f-string
`f"{base_slug}-{counter}"`, which renders the counter in decimal; Lean's
`Nat.repr` produces exactly that decimal string. -/

/-- Number of decimal digits of `n` (as rendered by `Nat.repr`). -/
def decLen (n : Nat) : Nat :=
  if _h : n < 10 then 1 else 1 + decLen (n / 10)
termination_by n
decreasing_by exact Nat.div_lt_self (by omega) (by omega)

/-- Parse a decimal digit string back into a natural number. -/
def decVal (l : List Char) : Nat :=
  l.foldl (fun a c => a * 10 + (c.toNat - 48)) 0

/-! ## The candidate sequence and the probe loop -/

/-- The k-th slug candidate probed by both variants: the bare base slug
for `k = 0` (`slug = base_slug` in anuncio; `counter == 0` in
asset_manager, where the guard `if counter > 0` keeps the base unsuffixed),
and `f"{base_slug}-{counter}"` with the decimal counter for `k ≥ 1`. -/
def candidate (base : String) (k : Nat) : String :=
  if k = 0 then base else base ++ "-" ++ Nat.repr k

/-- The probe loop shared by `Asset._generate_unique_slug`
(`anuncio/models.py`, lines 58-67) and the collision-retry loop of
`Asset.save` (`asset_manager/models.py`, lines 83-100): starting from
candidate index `k`, return the first candidate slug not present in
`taken`.  The loops in the source are unbounded; `fuel` bounds the
embedding, and the lemmas below show `taken.length + 1` fuel always
suffices, so on that fuel the embedding agrees with the unbounded loop. -/
def slugSearch (taken : List String) (base : String) : Nat → Nat → String
  | k, 0 => candidate base k
  | k, fuel+1 =>
    if candidate base k ∈ taken then slugSearch taken base (k+1) fuel
    else candidate base k

/-- The first candidate slug over `base` that is not in `taken`. -/
def firstFreeSlug (taken : List String) (base : String) : String :=
  slugSearch taken base 0 (taken.length + 1)

/-- Embedding of `Asset._generate_unique_slug` from `anuncio/models.py`:
`taken` lists the slugs for which the probe
`db.session.scalar(select(Asset).where(Asset.slug == slug))` finds a row. -/
def generate_unique_slug (taken : List String) (name : String) : String :=
  firstFreeSlug taken (simple_slugify name)

/-! ## The save paths of the `Asset` model -/

/-- Result of one `Asset.save` call in the anuncio variant
(`anuncio/models.py`, lines 69-80).  `some s` means a commit succeeded and
stored slug `s`; `none` means the retry commit also raised
`IntegrityError`, which `save` does not catch, so the exception propagates
to the caller.

The parameters model what this save observes in the shared database:
`probe1` is the slug set seen by the probes of the first
`_generate_unique_slug` call; `write1` is the set of slugs held by *other*
rows when the first `db.session.commit()` runs (the unique index on
`Asset.slug` makes the commit raise `IntegrityError` exactly when the slug
being written is in that set); `probe2` and `write2` play the same roles
for the single retry inside the `except IntegrityError` branch.  `slug0` is
the asset's slug before the call, the empty string when unset (Python
`if not self.slug`). -/
def anuncioSave (slug0 name : String)
    (probe1 write1 probe2 write2 : List String) : Option String :=
  let slug1 := if slug0 = "" then generate_unique_slug probe1 name else slug0
  if slug1 ∈ write1 then
    let slug2 := generate_unique_slug probe2 name
    if slug2 ∈ write2 then none else some slug2
  else some slug1

/-- The `while True` retry loop of `Asset.save` in the asset_manager
variant (`asset_manager/models.py`, lines 83-100), one environment entry
per iteration: the entry lists the slugs held by other rows when that
iteration's `db.session.commit()` runs (the commit raises `IntegrityError`
exactly when the current slug is in the set, and the post-rollback probe
`Asset.query.filter_by(slug=current_slug).first()` then sees the same
state, so the loop increments the counter and continues).  The source loop
is unbounded; the embedding returns `none` when it runs out of environment
entries, meaning the loop is still running at that point.  Serial numbers
are assumed unique here: a duplicate serial number raises `ValueError`
instead of retrying and is outside the slug claims. -/
def amSaveLoop (base : String) : Nat → List (List String) → Option String
  | _, [] => none
  | k, store :: rest =>
    if candidate base k ∈ store then amSaveLoop base (k+1) rest
    else some (candidate base k)

/-- Embedding of `Asset.save` from `asset_manager/models.py`: the slug is
recomputed from `self.name` on every call (`base_slug = slugify(self.name)`
with `counter = 0`), regardless of any slug stored by an earlier save. -/
def amSave (name : String) (env : List (List String)) : Option String :=
  amSaveLoop (slugify name) 0 env

/-! ## The redirect guard and its URL parser

`is_safe_url` (identical in `anuncio/run.py` lines 43-47 and
`asset_manager/run.py` lines 54-62) delegates to `urllib.parse.urlparse`
and `urllib.parse.urljoin` from the Python standard library, an
external collaborator of this repository; the definitions below embed the
behaviour of those two functions (CPython 3) on the components that
`is_safe_url` consumes.  `urlparse` differs from `urlsplit` only in
splitting a `;parameters` suffix off the path, which never changes the
scheme or the network location, so the embedding works with the
`urlsplit` component split and keeps any parameters inside the path. -/

/-- Parsed URL components (`scheme`, `netloc`, `path`, `query`,
`fragment`). -/
structure SplitResult where
  scheme : String
  netloc : String
  path : String
  query : String
  fragment : String
deriving Repr, DecidableEq

/-- CPython's `urlsplit` first deletes every tab, carriage return and line
feed from the URL (`_UNSAFE_URL_BYTES_TO_REMOVE`). -/
def removeTabsCRLF (s : String) : List Char :=
  s.data.filter (fun c => ¬(c = '\t' ∨ c = '\r' ∨ c = '\n'))

/-- The characters allowed in a URL scheme (`scheme_chars`): ASCII letters,
digits, and `+`, `-`, `.`. -/
def schemeChars (c : Char) : Bool :=
  c.isAlpha || c.isDigit || c = '+' || c = '-' || c = '.'

/-- Scheme detection of `urlsplit`: a prefix before the first `:` that is
nonempty, starts with an ASCII letter and consists of scheme characters is
the (lower-cased) scheme; otherwise the default scheme applies and the URL
is left whole. -/
def schemeSplit (l : List Char) (d : String) : String × List Char :=
  let pre := l.takeWhile (fun c => ¬(c = ':'))
  let ok := decide (pre.length < l.length) && !pre.isEmpty &&
    ((pre.head?.map Char.isAlpha).getD false) && pre.all schemeChars
  if ok then (⟨pre.map Char.toLower⟩, l.drop (pre.length + 1)) else (d, l)

/-- Netloc detection of `urlsplit` (`_splitnetloc`): after a leading `//`,
the network location extends to the first `/`, `?` or `#`. -/
def netlocSplit (r : List Char) : List Char × List Char :=
  if r.take 2 = ['/', '/'] then
    ((r.drop 2).takeWhile (fun c => ¬(c = '/' ∨ c = '?' ∨ c = '#')),
     (r.drop 2).dropWhile (fun c => ¬(c = '/' ∨ c = '?' ∨ c = '#')))
  else ([], r)

/-- Python `str.split(sep, 1)` used by `urlsplit` for `#` and `?`: the part
before the first separator, and the part after it (empty if absent). -/
def splitOnceAfter (sep : Char) (l : List Char) : List Char × List Char :=
  (l.takeWhile (fun c => ¬(c = sep)),
   (l.dropWhile (fun c => ¬(c = sep))).drop 1)

/-- Embedding of `urllib.parse.urlsplit` (CPython 3).  `none` models the
`ValueError("Invalid IPv6 URL")` that `urlsplit` raises when the network
location contains `[` without `]` or vice versa — the only parse failure
reachable with ASCII input (newer CPython additionally validates the
contents of a *matched* bracket pair, which this embedding accepts, and
applies an NFKC check that only non-ASCII network locations can trip). -/
def urlsplit (url : String) (d : String) : Option SplitResult :=
  let l := removeTabsCRLF url
  let sr := schemeSplit l d
  let nr := netlocSplit sr.2
  if '[' ∈ nr.1 ↔ ']' ∈ nr.1 then
    let fr := splitOnceAfter '#' nr.2
    let pq := splitOnceAfter '?' fr.1
    some ⟨sr.1, ⟨nr.1⟩, ⟨pq.1⟩, ⟨pq.2⟩, ⟨fr.2⟩⟩
  else none

/-- Embedding of `urllib.parse.urlunsplit` (CPython 3). -/
def urlunsplit (r : SplitResult) : String :=
  let p1 :=
    if r.netloc ≠ "" ∨ (r.path ≠ "" ∧ r.path.data.take 2 = ['/', '/']) then
      "//" ++ r.netloc ++
        (if r.path ≠ "" ∧ r.path.data.take 1 ≠ ['/'] then "/" ++ r.path else r.path)
    else r.path
  let p2 := if r.scheme ≠ "" then r.scheme ++ ":" ++ p1 else p1
  let p3 := if r.query ≠ "" then p2 ++ "?" ++ r.query else p2
  if r.fragment ≠ "" then p3 ++ "#" ++ r.fragment else p3

/-- The schemes for which `urljoin` performs relative resolution
(`urllib.parse.uses_relative`). -/
def uses_relative : List String :=
  ["", "ftp", "http", "gopher", "nntp", "imap", "wais", "file", "https",
   "shttp", "mms", "prospero", "rtsp", "rtspu", "sftp", "svn", "svn+ssh",
   "ws", "wss"]

/-- The schemes for which `urljoin` inherits the base network location
(`urllib.parse.uses_netloc`). -/
def uses_netloc : List String :=
  ["", "ftp", "http", "gopher", "nntp", "telnet", "imap", "wais", "file",
   "mms", "https", "shttp", "snews", "prospero", "rtsp", "rtspu", "rsync",
   "svn", "svn+ssh", "sftp", "nfs", "git", "git+ssh", "ws", "wss"]

/-- Python `str.split(sep)` for a one-character separator, as used by
`urljoin` on paths. -/
def splitChar (sep : Char) : List Char → List (List Char)
  | [] => [[]]
  | c :: rest =>
    if c = sep then [] :: splitChar sep rest
    else
      match splitChar sep rest with
      | [] => [[c]]
      | h :: t => (c :: h) :: t

/-- Python `sep.join(...)` for a one-character separator. -/
def joinChar (sep : Char) : List (List Char) → List Char
  | [] => []
  | [x] => x
  | x :: y :: rest => x ++ sep :: joinChar sep (y :: rest)

/-- The slice assignment `segments[1:-1] = filter(None, segments[1:-1])` of
`urljoin`: drop the empty segments, keeping the first and last entries. -/
def filterMiddle : List (List Char) → List (List Char)
  | [] => []
  | [a] => [a]
  | a :: b :: rest =>
    a :: (((b :: rest).dropLast.filter (fun s => s ≠ [])) ++
      [(b :: rest).getLast (by simp)])

/-- The dot-segment resolution loop of `urljoin`: `..` pops, `.` is
skipped, anything else is appended. -/
def resolveSegments (segs : List (List Char)) : List (List Char) :=
  segs.foldl
    (fun acc seg =>
      if seg = ['.', '.'] then acc.dropLast
      else if seg = ['.'] then acc
      else acc ++ [seg])
    []

/-- The relative-path merge of `urljoin`: split the base path and the
relative path on `/`, drop the last base segment (unless empty), filter
empty middle segments, resolve `.` and `..`, and rejoin with `/`. -/
def joinPathMerge (bp tp : List Char) : List Char :=
  let baseParts0 := splitChar '/' bp
  let baseParts :=
    if baseParts0.getLast? = some [] then baseParts0
    else baseParts0.dropLast
  let segments :=
    if tp.take 1 = ['/'] then splitChar '/' tp
    else filterMiddle (baseParts ++ splitChar '/' tp)
  let resolved :=
    if segments.getLast? = some ['.'] ∨ segments.getLast? = some ['.', '.']
    then resolveSegments segments ++ [[]]
    else resolveSegments segments
  joinChar '/' resolved

/-- Embedding of `urllib.parse.urljoin` (CPython 3).  `none` models a
`ValueError` escaping from the underlying parser. -/
def urljoin (base url : String) : Option String :=
  if base = "" then some url
  else if url = "" then some base
  else
    match urlsplit base "" with
    | none => none
    | some b =>
      match urlsplit url b.scheme with
      | none => none
      | some t =>
        if t.scheme ≠ b.scheme ∨ t.scheme ∉ uses_relative then some url
        else if t.scheme ∈ uses_netloc ∧ t.netloc ≠ "" then some (urlunsplit t)
        else
          let netloc := if t.scheme ∈ uses_netloc then b.netloc else t.netloc
          if t.path = "" then
            let q := if t.query = "" then b.query else t.query
            some (urlunsplit ⟨t.scheme, netloc, b.path, q, t.fragment⟩)
          else
            let joined := joinPathMerge b.path.data t.path.data
            let path2 : String := if joined = [] then "/" else ⟨joined⟩
            some (urlunsplit ⟨t.scheme, netloc, path2, t.query, t.fragment⟩)

/-- Embedding of `is_safe_url` from `anuncio/run.py` (lines 43-47) and
`asset_manager/run.py` (lines 54-62); the two definitions are identical.
`host_url` stands for Flask's `request.host_url`, which is always of the
form `scheme://host[:port]/`.  The guard has no exception handling, so a
`ValueError` from the parser propagates: that is the `none` outcome. -/
def is_safe_url (host_url target : String) : Option Bool :=
  match urlsplit host_url "" with
  | none => none
  | some ref =>
    match urljoin host_url target with
    | none => none
    | some joined =>
      match urlsplit joined "" with
      | none => none
      | some t =>
        some (decide ((t.scheme = "http" ∨ t.scheme = "https") ∧
          ref.netloc = t.netloc))

/-- The post-login redirect decision of `login` (`anuncio/run.py` lines
72-75: `if not next_page or not is_safe_url(next_page): redirect(index)`,
and equivalently `asset_manager/run.py` lines 138-142).  `none` for the
`next` argument models an absent `request.args.get('next')`; the result is
the redirect target, `"/"` standing for `url_for('index')`, and `none`
models an exception escaping from `is_safe_url`. -/
def nextRedirect (host_url : String) (next_page : Option String) : Option String :=
  match next_page with
  | none => some "/"
  | some t =>
    if t = "" then some "/"
    else
      match is_safe_url host_url t with
      | none => none
      | some true => some t
      | some false => some "/"

/-- No `[` or `]` occurs in the string: such strings can never trip the
IPv6-bracket `ValueError` of the parser. -/
def noBr (s : String) : Prop := ∀ c ∈ s.data, c ≠ '[' ∧ c ≠ ']'

/-! ## The signup and login flows -/

/-- Outcome of a login POST as the client observes it.  `failure` carries
the flashed message, the flash category, and the response action that
follows. -/
inductive LoginOutcome where
  | success (email : String) (remember : Bool)
  | failure (message : String) (category : String) (action : String)
deriving Repr, DecidableEq

/-- `User.get_by_email`: the stored user (email and password credential)
with the given email, if any.  Password hashing (werkzeug) is an external
collaborator; `check_password` is modelled as comparison with the stored
credential. -/
def lookupUser (users : List (String × String)) (email : String) :
    Option (String × String) :=
  users.find? (fun u => u.1 = email)

/-- Embedding of the credential check of `login` in `anuncio/run.py`
(lines 62-76): `if user is None or not user.check_password(...)` flashes
"Credenciales inválidas" (category "danger") and redirects back to the
login page — one branch for both failure causes. -/
def anuncioLogin (users : List (String × String)) (email password : String)
    (remember : Bool) : LoginOutcome :=
  match lookupUser users email with
  | none => .failure "Credenciales inválidas" "danger" "redirect:login"
  | some u =>
    if u.2 = password then .success email remember
    else .failure "Credenciales inválidas" "danger" "redirect:login"

/-- Embedding of the credential check of `login` in
`asset_manager/run.py` (lines 119-146): `if user and
user.check_password(...)` succeeds, and the `else` flashes "Invalid email
or password." (category "error") and re-renders the login form — one
branch for both failure causes. -/
def amLogin (users : List (String × String)) (email password : String)
    (remember : Bool) : LoginOutcome :=
  match lookupUser users email with
  | none => .failure "Invalid email or password." "error" "render:login_form"
  | some u =>
    if u.2 = password then .success email remember
    else .failure "Invalid email or password." "error" "render:login_form"

/-- Embedding of the duplicate-email guard of `signup` (`anuncio/run.py`
lines 78-92 — where the `SignupForm.validate_email` hook in
`anuncio/forms.py` rejects a duplicate before the route-level
`get_by_email` check can even run — and `asset_manager/run.py` lines
86-116): if a stored user already holds the email, an error is shown and
nothing is created; otherwise the new user is stored.  The result is the
new user table, whether a user-visible error was shown, and whether a
record was created. -/
def signupStep (users : List String) (email : String) :
    List String × Bool × Bool :=
  if email ∈ users then (users, true, false)
  else (users ++ [email], false, true)

/-! ## The public asset listing -/

/-- An asset row as `get_all` returns it; `timestamp` models the creation
timestamp column (`timestamp` in anuncio, `created_at` in asset_manager).
The remaining columns play no role in the ordering. -/
structure AssetRow where
  id : Nat
  user_id : Nat
  name : String
  description : String
  slug : String
  timestamp : Nat
deriving Repr, DecidableEq

/-- Embedding of `Asset.get_all` (`anuncio/models.py` lines 86-88 and
`asset_manager/models.py` lines 123-126):
`select(Asset).order_by(<timestamp>.desc())` returns the stored rows
sorted by creation timestamp in descending order. -/
def get_all (rows : List AssetRow) : List AssetRow :=
  rows.mergeSort (fun a b => b.timestamp ≤ a.timestamp)

/-! # Theorems -/

/-! ## Helper lemmas about the slug normalizer -/

theorem collapseGo_cons (p : Char → Bool) (b : Bool) (a : Char) (rest : List Char) :
    collapseGo p b (a :: rest) =
      cond (p a) (cond b (collapseGo p true rest) ('-' :: collapseGo p true rest))
        (a :: collapseGo p false rest) := rfl

theorem collapseGo_mem {p : Char → Bool} {c : Char} :
    ∀ {b : Bool} {l : List Char}, c ∈ collapseGo p b l →
      c = '-' ∨ (c ∈ l ∧ p c = false) := by
  intro b l
  induction l generalizing b with
  | nil => intro h; simp [collapseGo] at h
  | cons a rest ih =>
    intro h
    rw [collapseGo_cons] at h
    cases ha : p a with
    | true =>
      rw [ha] at h
      cases b with
      | true =>
        simp only [cond_true] at h
        rcases ih h with h1 | ⟨h2, h3⟩
        · exact Or.inl h1
        · exact Or.inr ⟨List.mem_cons_of_mem _ h2, h3⟩
      | false =>
        simp only [cond_true, cond_false] at h
        rcases List.mem_cons.1 h with rfl | h'
        · exact Or.inl rfl
        · rcases ih h' with h1 | ⟨h2, h3⟩
          · exact Or.inl h1
          · exact Or.inr ⟨List.mem_cons_of_mem _ h2, h3⟩
    | false =>
      rw [ha] at h
      simp only [cond_false] at h
      rcases List.mem_cons.1 h with rfl | h'
      · exact Or.inr ⟨List.mem_cons_self _ _, ha⟩
      · rcases ih h' with h1 | ⟨h2, h3⟩
        · exact Or.inl h1
        · exact Or.inr ⟨List.mem_cons_of_mem _ h2, h3⟩

theorem stripDashes_subset {c : Char} {l : List Char}
    (h : c ∈ stripDashes l) : c ∈ l := by
  unfold stripDashes at h
  have h1 := List.mem_reverse.1 h
  have h3 : c ∈ (l.dropWhile (fun c => c = '-')).reverse :=
    (List.dropWhile_suffix (fun c => c = '-')).subset h1
  have h4 := List.mem_reverse.1 h3
  exact (List.dropWhile_suffix (fun c => c = '-')).subset h4

theorem head?_dropWhile_ne {p : Char → Bool} :
    ∀ (l : List Char) (c : Char), (l.dropWhile p).head? = some c → p c = false := by
  intro l
  induction l with
  | nil => intro c h; cases h
  | cons a rest ih =>
    intro c h
    by_cases ha : p a
    · rw [List.dropWhile_cons_of_pos ha] at h
      exact ih c h
    · rw [List.dropWhile_cons_of_neg ha] at h
      cases h
      simpa using ha

theorem stripDashes_head? {l : List Char} :
    (stripDashes l).head? ≠ some '-' := by
  intro h
  have hpre : stripDashes l <+:
      l.dropWhile (fun c => c = '-') := by
    unfold stripDashes
    have h0 := List.dropWhile_suffix (l := (l.dropWhile (fun c => c = '-')).reverse)
      (fun c => c = '-')
    have h2 := List.reverse_prefix.2 h0
    simpa using h2
  obtain ⟨t, ht⟩ := hpre
  have hh : (l.dropWhile (fun c => c = '-')).head? = some '-' := by
    rw [← ht, List.head?_append, h]; rfl
  have hcon := head?_dropWhile_ne l '-' hh
  simp at hcon

theorem stripDashes_getLast? {l : List Char} :
    (stripDashes l).getLast? ≠ some '-' := by
  intro h
  unfold stripDashes at h
  rw [List.getLast?_reverse] at h
  have hcon := head?_dropWhile_ne _ '-' h
  simp at hcon

/-- Transfer a decidable character property from the 128 ASCII code points
to every ASCII character. -/
theorem ascii_lift (P : Char → Prop) [DecidablePred P]
    (hall : ∀ n : Fin 128, P (Char.ofNat n.val))
    (c : Char) (hc : c.toNat < 128) : P c := by
  have h := hall ⟨c.toNat, hc⟩
  simpa using h

/-- On ASCII input, a lower-cased character that Python's `\w` accepts is a
lower-case letter, a digit, or an underscore. -/
theorem toLower_word_classify (c : Char) (hc : c.toNat < 128) :
    pyIsWord c.toLower = true →
      slugSpecChar c.toLower = true ∨ c.toLower = '_' := by
  exact ascii_lift
    (fun c => pyIsWord c.toLower = true →
      slugSpecChar c.toLower = true ∨ c.toLower = '_')
    (by decide) c hc

/-! ## Claim C1 -/

/-- Claim C1, counterexample: the display name `"a_b"` (ASCII, containing an
underscore) is slugified by `_simple_slugify` to `"a_b"`, which contains the
underscore — a character outside the set `[a-z0-9-]` asserted by the claim.
Python's `\w` keeps underscores, and the collapse pass `[-\s]+` does not
touch them. -/
theorem simple_slugify_underscore_counterexample :
    simple_slugify "a_b" = "a_b" ∧
      '_' ∈ (simple_slugify "a_b").data ∧ slugSpecChar '_' = false := by
  refine ⟨by decide, by decide, by decide⟩

/-- Claim C1, amended: for every ASCII display name, the base slug produced
by `_simple_slugify` contains only characters from `[a-z0-9-]` or the
underscore (which the generator keeps, contrary to the original claim), and
has no leading or trailing hyphen.  In particular it contains no upper-case
letter and no whitespace. -/
theorem simple_slugify_ascii_charset (s : String)
    (h : ∀ c ∈ s.data, c.toNat < 128) :
    (∀ c ∈ (simple_slugify s).data, slugSpecChar c = true ∨ c = '_') ∧
    (simple_slugify s).data.head? ≠ some '-' ∧
    (simple_slugify s).data.getLast? ≠ some '-' := by
  refine ⟨?_, stripDashes_head?, stripDashes_getLast?⟩
  intro c hc
  have h1 := stripDashes_subset hc
  rcases collapseGo_mem h1 with rfl | ⟨h2, h3⟩
  · exact Or.inl (by decide)
  · have h4 := List.of_mem_filter h2
    have h5 := List.mem_of_mem_filter h2
    obtain ⟨c0, hc0, rfl⟩ := List.mem_map.1 h5
    have hdash : isDashSpace c0.toLower = false := h3
    have hw : pyIsWord c0.toLower = true := by
      simp only [isDashSpace, Bool.or_eq_false_iff] at hdash
      simpa [hdash.1, hdash.2] using h4
    exact toLower_word_classify c0 (h c0 hc0) hw

/-- Witness for `simple_slugify_ascii_charset` at the concrete ASCII display
name `"Hello, World!"`. -/
theorem simple_slugify_ascii_charset_witness :
    (∀ c ∈ (simple_slugify "Hello, World!").data, slugSpecChar c = true ∨ c = '_') ∧
    (simple_slugify "Hello, World!").data.head? ≠ some '-' ∧
    (simple_slugify "Hello, World!").data.getLast? ≠ some '-' :=
  simple_slugify_ascii_charset "Hello, World!" (by decide)

/-! ## Decimal representation lemmas -/

theorem digitChar_toNat (d : Nat) (h : d < 10) :
    (Nat.digitChar d).toNat - 48 = d := by
  interval_cases d <;> rfl

theorem decLen_le_succ (n : Nat) : decLen n ≤ n + 1 := by
  induction n using Nat.strong_induction_on with
  | _ n ih =>
    rw [decLen]
    split
    · omega
    · rename_i h
      have h1 : n / 10 < n := Nat.div_lt_self (by omega) (by omega)
      have h2 := ih (n / 10) h1
      omega

theorem toDigitsCore_foldl (fuel : Nat) :
    ∀ (n : Nat) (ds : List Char) (a : Nat), decLen n ≤ fuel →
      List.foldl (fun a c => a * 10 + (c.toNat - 48)) a (Nat.toDigitsCore 10 fuel n ds) =
        List.foldl (fun a c => a * 10 + (c.toNat - 48)) (a * 10 ^ decLen n + n) ds := by
  induction fuel with
  | zero =>
    intro n ds a h
    rw [decLen] at h
    split at h <;> omega
  | succ fuel ih =>
    intro n ds a h
    by_cases h10 : n / 10 = 0
    · have hn : n < 10 := by omega
      have hlen : decLen n = 1 := by rw [decLen]; simp [hn]
      simp only [Nat.toDigitsCore, h10, if_true]
      rw [List.foldl_cons, hlen]
      congr 1
      rw [digitChar_toNat (n % 10) (by omega), pow_one]
      omega
    · have hn : ¬ n < 10 := by omega
      have hlen : decLen n = 1 + decLen (n / 10) := by
        rw [decLen]; rw [dif_neg hn]
      have hfuel : decLen (n / 10) ≤ fuel := by omega
      simp only [Nat.toDigitsCore, h10, if_false]
      rw [ih (n / 10) (Nat.digitChar (n % 10) :: ds) a hfuel]
      rw [List.foldl_cons]
      congr 1
      rw [digitChar_toNat (n % 10) (by omega), hlen]
      have hdm : n / 10 * 10 + n % 10 = n := by omega
      calc (a * 10 ^ decLen (n / 10) + n / 10) * 10 + n % 10
          = a * (10 ^ decLen (n / 10) * 10) + (n / 10 * 10 + n % 10) := by ring
        _ = a * 10 ^ (1 + decLen (n / 10)) + n := by
            rw [hdm, add_comm 1 (decLen (n / 10)), pow_succ]

theorem decVal_toDigits (n : Nat) : decVal (Nat.toDigits 10 n) = n := by
  unfold Nat.toDigits decVal
  have h := toDigitsCore_foldl (n + 1) n [] 0 (decLen_le_succ n)
  simpa using h

theorem natRepr_inj {m n : Nat} (h : Nat.repr m = Nat.repr n) : m = n := by
  have hm := decVal_toDigits m
  have hn := decVal_toDigits n
  unfold Nat.repr List.asString at h
  have hl : Nat.toDigits 10 m = Nat.toDigits 10 n := congrArg String.data h
  rw [hl] at hm
  omega

/-! ## Probe-loop lemmas -/

theorem candidate_inj (base : String) : Function.Injective (candidate base) := by
  intro i j h
  unfold candidate at h
  by_cases hi : i = 0 <;> by_cases hj : j = 0
  · omega
  · rw [if_pos hi, if_neg hj] at h
    have := congrArg String.length h
    simp only [String.length_append] at this
    have hdash : ("-" : String).length = 1 := rfl
    omega
  · rw [if_neg hi, if_pos hj] at h
    have := congrArg String.length h
    simp only [String.length_append] at this
    have hdash : ("-" : String).length = 1 := rfl
    omega
  · rw [if_neg hi, if_neg hj] at h
    have hd := congrArg String.data h
    simp only [String.data_append, List.append_assoc] at hd
    have h2 : (Nat.repr i).data = (Nat.repr j).data := by
      have h1 := List.append_cancel_left hd
      exact List.append_cancel_left h1
    exact natRepr_inj (String.ext h2)

theorem slugSearch_eq (taken : List String) (base : String) :
    ∀ (fuel k j : Nat), k ≤ j → j < k + fuel →
      candidate base j ∉ taken →
      (∀ i, k ≤ i → i < j → candidate base i ∈ taken) →
      slugSearch taken base k fuel = candidate base j := by
  intro fuel
  induction fuel with
  | zero => intro k j h1 h2 _ _; omega
  | succ fuel ih =>
    intro k j h1 h2 h3 h4
    by_cases hk : candidate base k ∈ taken
    · have hkj : k ≠ j := by rintro rfl; exact h3 hk
      rw [slugSearch, if_pos hk]
      exact ih (k+1) j (by omega) (by omega) h3 (fun i hi1 hi2 => h4 i (by omega) hi2)
    · have hkj : j = k := by
        by_contra hne
        exact hk (h4 k (le_refl k) (by omega))
      subst hkj
      rw [slugSearch, if_neg hk]

theorem exists_free_candidate (taken : List String) (base : String) :
    ∃ j, j ≤ taken.length ∧ candidate base j ∉ taken := by
  by_contra hcon
  push_neg at hcon
  have hsub : ((List.range (taken.length + 1)).map (candidate base)) ⊆ taken := by
    intro x hx
    obtain ⟨j, hj, rfl⟩ := List.mem_map.1 hx
    exact hcon j (by
      have := List.mem_range.1 hj
      omega)
  have hnd : ((List.range (taken.length + 1)).map (candidate base)).Nodup :=
    (List.nodup_range _).map (candidate_inj base)
  have hle := (hnd.subperm hsub).length_le
  simp at hle

/-- Full characterization of the probe loop: it returns the first free
candidate in the sequence base, base-1, base-2, ... -/
theorem firstFreeSlug_spec (taken : List String) (base : String) :
    ∃ j, firstFreeSlug taken base = candidate base j ∧
      candidate base j ∉ taken ∧
      (∀ i, i < j → candidate base i ∈ taken) := by
  obtain ⟨jb, hjb, hfree⟩ := exists_free_candidate taken base
  have hex : ∃ j, candidate base j ∉ taken := ⟨jb, hfree⟩
  refine ⟨Nat.find hex, ?_, Nat.find_spec hex, ?_⟩
  · apply slugSearch_eq taken base (taken.length + 1) 0 (Nat.find hex)
    · omega
    · have := Nat.find_min' hex hfree
      omega
    · exact Nat.find_spec hex
    · intro i _ hi
      have := Nat.find_min hex hi
      exact not_not.1 this
  · intro i hi
    exact not_not.1 (Nat.find_min hex hi)

/-- The first free slug is never one of the taken slugs. -/
theorem firstFreeSlug_free (taken : List String) (base : String) :
    firstFreeSlug taken base ∉ taken := by
  obtain ⟨j, heq, hfree, _⟩ := firstFreeSlug_spec taken base
  rw [heq]
  exact hfree

/-- The generated slug of the anuncio generator is never a taken slug. -/
theorem generate_unique_slug_free (taken : List String) (name : String) :
    generate_unique_slug taken name ∉ taken :=
  firstFreeSlug_free taken (simple_slugify name)

/-- A candidate over a base that is present in `taken` (in particular, the
base itself at index 0 when taken) forces the first free index past 0. -/
theorem firstFreeSlug_suffixed (taken : List String) (base : String)
    (hbase : base ∈ taken) :
    ∃ k, 1 ≤ k ∧ firstFreeSlug taken base = base ++ "-" ++ Nat.repr k := by
  obtain ⟨j, heq, hfree, _⟩ := firstFreeSlug_spec taken base
  have hj : j ≠ 0 := by
    rintro rfl
    exact hfree (by simpa [candidate] using hbase)
  refine ⟨j, by omega, ?_⟩
  rw [heq]
  unfold candidate
  rw [if_neg hj]

/-- Sequential creation of two records with the same base slug: the second
first-free slug differs from the first and carries a decimal suffix. -/
theorem firstFreeSlug_seq (st : List String) (base : String) :
    firstFreeSlug st base ≠ firstFreeSlug (firstFreeSlug st base :: st) base ∧
    ∃ k, 1 ≤ k ∧
      firstFreeSlug (firstFreeSlug st base :: st) base = base ++ "-" ++ Nat.repr k := by
  have hfree2 := firstFreeSlug_free (firstFreeSlug st base :: st) base
  constructor
  · intro heq
    apply hfree2
    rw [← heq]
    exact List.mem_cons_self _ _
  · apply firstFreeSlug_suffixed
    obtain ⟨j1, heq1, _, hmin1⟩ := firstFreeSlug_spec st base
    by_cases hj1 : j1 = 0
    · subst hj1
      have : firstFreeSlug st base = base := by simpa [candidate] using heq1
      rw [this]
      exact List.mem_cons_self _ _
    · have h0 : candidate base 0 ∈ st := hmin1 0 (by omega)
      have : base ∈ st := by simpa [candidate] using h0
      exact List.mem_cons_of_mem _ this

/-- On a quiescent store (the same set of other-row slugs at every
iteration), the asset_manager retry loop terminates within
`store.length + 1` iterations and returns exactly the first free
candidate. -/
theorem amSaveLoop_replicate (store : List String) (base : String) :
    ∀ (fuel k j : Nat), k ≤ j → j < k + fuel →
      candidate base j ∉ store →
      (∀ i, k ≤ i → i < j → candidate base i ∈ store) →
      amSaveLoop base k (List.replicate fuel store) =
        some (slugSearch store base k fuel) := by
  intro fuel
  induction fuel with
  | zero => intro k j h1 h2 _ _; omega
  | succ fuel ih =>
    intro k j h1 h2 h3 h4
    rw [List.replicate_succ]
    by_cases hk : candidate base k ∈ store
    · have hkj : k ≠ j := by rintro rfl; exact h3 hk
      rw [amSaveLoop, if_pos hk, slugSearch, if_pos hk]
      exact ih (k+1) j (by omega) (by omega) h3 (fun i hi1 hi2 => h4 i (by omega) hi2)
    · rw [amSaveLoop, if_neg hk, slugSearch, if_neg hk]

/-- On a quiescent store, `Asset.save` of the asset_manager variant
succeeds and stores the first free candidate slug. -/
theorem amSave_replicate (store : List String) (name : String) :
    amSave name (List.replicate (store.length + 1) store) =
      some (firstFreeSlug store (slugify name)) := by
  obtain ⟨j, _, hfree, hmin⟩ := firstFreeSlug_spec store (slugify name)
  have hle : j ≤ store.length := by
    obtain ⟨jb, hjb, hfb⟩ := exists_free_candidate store (slugify name)
    by_contra hgt
    exact hfb (hmin jb (by omega))
  exact amSaveLoop_replicate store (slugify name) (store.length + 1) 0 j
    (by omega) (by omega) hfree (fun i _ hi => hmin i hi)

/-- Whatever slug a successful asset_manager save stores was free among the
other rows at the moment its commit succeeded. -/
theorem amSaveLoop_success_fresh (base : String) :
    ∀ (env : List (List String)) (k : Nat) (s : String),
      amSaveLoop base k env = some s → ∃ st ∈ env, s ∉ st := by
  intro env
  induction env with
  | nil => intro k s h; cases h
  | cons store rest ih =>
    intro k s h
    rw [amSaveLoop] at h
    by_cases hk : candidate base k ∈ store
    · rw [if_pos hk] at h
      obtain ⟨st, hst, hnot⟩ := ih (k+1) s h
      exact ⟨st, List.mem_cons_of_mem _ hst, hnot⟩
    · rw [if_neg hk] at h
      cases h
      exact ⟨store, List.mem_cons_self _ _, hk⟩

/-! ## Claim C2 -/

/-- Claim C2, counterexample: in the anuncio variant a save whose retry
commit also hits a uniqueness violation terminates with the uncaught
`IntegrityError` instead of repeating the probe-and-write sequence until a
commit succeeds.  With display name "a", the first probe seeing an empty
table, and concurrent writers holding "a" at the first commit and
\{"a", "a-1"\} at the retry commit, the save raises (result `none`): the
`except IntegrityError` branch of `Asset.save` retries exactly once and
does not loop. -/
theorem anuncio_save_retry_once_counterexample :
    anuncioSave "" "a" [] ["a"] ["a"] ["a", "a-1"] = none := by decide

/-- Claim C2, amended: on a slug-uniqueness violation at write time both
variants roll back and retry the probe-and-write sequence, but only the
asset_manager variant repeats it until a commit succeeds (shown here on a
quiescent store, where its loop always terminates with a slug free among
the other rows); the anuncio variant retries exactly once and propagates
the second failure.  In either variant, a save that does commit stores a
slug that was not held by any other row at the successful commit, so two
stored assets never share a slug. -/
theorem save_retry_and_uniqueness :
    (∀ (slug0 name : String) (p1 w1 p2 w2 : List String) (s : String),
        anuncioSave slug0 name p1 w1 p2 w2 = some s → s ∉ w1 ∨ s ∉ w2) ∧
    (∀ (base : String) (env : List (List String)) (k : Nat) (s : String),
        amSaveLoop base k env = some s → ∃ st ∈ env, s ∉ st) ∧
    (∀ (name : String) (store : List String),
        amSave name (List.replicate (store.length + 1) store) =
          some (firstFreeSlug store (slugify name)) ∧
        firstFreeSlug store (slugify name) ∉ store) := by
  refine ⟨?_, ?_, ?_⟩
  · intro slug0 name p1 w1 p2 w2 s h
    unfold anuncioSave at h
    by_cases h1 : (if slug0 = "" then generate_unique_slug p1 name else slug0) ∈ w1
    · rw [if_pos h1] at h
      by_cases h2 : generate_unique_slug p2 name ∈ w2
      · rw [if_pos h2] at h; cases h
      · rw [if_neg h2] at h
        cases h
        exact Or.inr h2
    · rw [if_neg h1] at h
      cases h
      exact Or.inl h1
  · intro base env k s h
    exact amSaveLoop_success_fresh base env k s h
  · intro name store
    exact ⟨amSave_replicate store name, firstFreeSlug_free store (slugify name)⟩

/-- Witness for `save_retry_and_uniqueness`: a concrete successful anuncio
save (no collision at the first commit) stores a slug free among the other
rows. -/
theorem save_retry_and_uniqueness_witness :
    ("a" : String) ∉ (["b"] : List String) ∨ ("a" : String) ∉ (["c"] : List String) :=
  save_retry_and_uniqueness.1 "" "a" [] ["b"] [] ["c"] "a" (by decide)

/-! ## Claim C5 -/

/-- Claim C5, counterexample: the asset_manager variant recomputes the slug
from the display name on every save.  An asset named "a" first saved while
another row holds "a" stores slug "a-1"; saving the same asset again after
that other row is gone stores slug "a" — the slug changed on a later save,
so it is not assigned exactly once. -/
theorem am_save_slug_reassigned_counterexample :
    amSave "a" [["a"], ["a"]] = some "a-1" ∧
    amSave "a" [[]] = some "a" ∧
    ("a-1" : String) ≠ "a" := by
  refine ⟨by decide, by decide, by decide⟩

/-- Claim C5, amended: in the anuncio variant the slug is computed only when
unset (`if not self.slug`), so a later save of an already-slugged asset
whose commit succeeds returns the same slug unchanged; in the asset_manager
variant `save` recomputes the slug from the name on every call, so a later
save may store a different slug. -/
theorem anuncio_slug_stable (slug0 name : String) (p1 w1 p2 w2 : List String)
    (h0 : slug0 ≠ "") (h1 : slug0 ∉ w1) :
    anuncioSave slug0 name p1 w1 p2 w2 = some slug0 := by
  unfold anuncioSave
  rw [if_neg h0, if_neg h1]

/-- Witness for `anuncio_slug_stable`: a second save of an asset already
holding slug "x" leaves the slug unchanged. -/
theorem anuncio_slug_stable_witness :
    anuncioSave "x" "some name" [] [] [] [] = some "x" :=
  anuncio_slug_stable "x" "some name" [] [] [] [] (by decide) (by decide)

/-! ## Claim C6 -/

/-- Claim C6: two assets with the same display name created in sequence
(each save probing and committing against the store left by the previous
one, no concurrency) get different slugs, and the second slug is the base
slug extended with a decimal counter suffix.  Stated for both variants:
the anuncio generator probing `st` and then `s1 :: st`, and the
asset_manager save running on the quiescent stores `st` and `s1 :: st`. -/
theorem sequential_duplicate_names :
    (∀ (st : List String) (name s1 s2 : String),
        s1 = generate_unique_slug st name →
        s2 = generate_unique_slug (s1 :: st) name →
        s1 ≠ s2 ∧ ∃ k, 1 ≤ k ∧ s2 = simple_slugify name ++ "-" ++ Nat.repr k) ∧
    (∀ (st : List String) (name s1 s2 : String),
        amSave name (List.replicate (st.length + 1) st) = some s1 →
        amSave name (List.replicate ((s1 :: st).length + 1) (s1 :: st)) = some s2 →
        s1 ≠ s2 ∧ ∃ k, 1 ≤ k ∧ s2 = slugify name ++ "-" ++ Nat.repr k) := by
  constructor
  · intro st name s1 s2 h1 h2
    subst h1; subst h2
    exact firstFreeSlug_seq st (simple_slugify name)
  · intro st name s1 s2 h1 h2
    rw [amSave_replicate st name] at h1
    have hs1 : s1 = firstFreeSlug st (slugify name) := by
      cases h1; rfl
    subst hs1
    rw [amSave_replicate _ name] at h2
    have hs2 : s2 = firstFreeSlug (firstFreeSlug st (slugify name) :: st) (slugify name) := by
      cases h2; rfl
    subst hs2
    exact firstFreeSlug_seq st (slugify name)

/-- Witness for `sequential_duplicate_names`: the anuncio variant on an
empty table gives slugs "a" then "a-1" for two assets both named "a". -/
theorem sequential_duplicate_names_witness :
    ("a" : String) ≠ generate_unique_slug ["a"] "a" ∧
    ∃ k, 1 ≤ k ∧ generate_unique_slug ["a"] "a" = simple_slugify "a" ++ "-" ++ Nat.repr k := by
  have h := sequential_duplicate_names.1 [] "a" "a" (generate_unique_slug ["a"] "a")
    (by decide) (by decide)
  simpa using h

/-! ## Claim C7 -/

/-- Claim C7, counterexample: the asset_manager variant does not start
appending "-0" after the base form collides; its first retry after the base
slug "b" collides probes and stores "b-1".  (The guard
`if counter > 0 else base_slug` means "-0" is never generated: `counter`
is 0 only for the bare base.) -/
theorem am_counter_starts_at_one_counterexample :
    amSave "b" [["b"], ["b"]] = some "b-1" ∧ ("b-1" : String) ≠ ("b-0" : String) := by
  refine ⟨by decide, by decide⟩

/-- Claim C7, amended: when the base slug is taken, both variants append a
monotonically increasing decimal counter and re-probe until a free slug is
found, and both start the suffixes at "-1" after the bare base collides:
candidate 0 is the bare base, candidate k for k ≥ 1 is base-k, the probe
loop returns the first free candidate (so every earlier candidate was
taken), and no candidate ever carries the suffix "-0". -/
theorem counter_suffix_policy :
    (∀ base, candidate base 0 = base) ∧
    (∀ base k, 1 ≤ k → candidate base k = base ++ "-" ++ Nat.repr k) ∧
    (∀ base, candidate base 1 = base ++ "-1") ∧
    (∀ (taken : List String) (base : String), base ∈ taken →
        ∃ k, 1 ≤ k ∧ firstFreeSlug taken base = base ++ "-" ++ Nat.repr k) ∧
    (∀ base k, candidate base k ≠ base ++ "-0") := by
  refine ⟨?_, ?_, ?_, ?_, ?_⟩
  · intro base; rfl
  · intro base k hk
    unfold candidate
    rw [if_neg (by omega)]
  · intro base
    unfold candidate
    rw [if_neg (by omega)]
    have h : ("-" : String).data ++ (Nat.repr 1).data = ("-1" : String).data := by decide
    apply String.ext
    simp only [String.data_append, List.append_assoc, h]
  · intro taken base hbase
    exact firstFreeSlug_suffixed taken base hbase
  · intro base k h
    unfold candidate at h
    by_cases hk : k = 0
    · rw [if_pos hk] at h
      have := congrArg String.length h
      simp only [String.length_append] at this
      have hz : ("-0" : String).length = 2 := rfl
      omega
    · rw [if_neg hk] at h
      have hd := congrArg String.data h
      simp only [String.data_append, List.append_assoc] at hd
      have h1 := List.append_cancel_left hd
      have h2 : (Nat.repr k).data = ['0'] := by simpa using h1
      have h3 : Nat.repr k = Nat.repr 0 := by
        apply String.ext
        rw [h2]
        decide
      exact hk (natRepr_inj h3)

/-- Witness for `counter_suffix_policy`: with base "b" taken, the first
free slug over store \{"b"\} is "b-1". -/
theorem counter_suffix_policy_witness :
    ∃ k, 1 ≤ k ∧ firstFreeSlug ["b"] "b" = "b" ++ "-" ++ Nat.repr k :=
  counter_suffix_policy.2.2.2.1 ["b"] "b" (by decide)

/-! ## URL parser lemmas -/

theorem removeTabsCRLF_subset (s : String) :
    ∀ c ∈ removeTabsCRLF s, c ∈ s.data := by
  intro c hc
  exact (List.filter_sublist _).subset hc

theorem schemeSplit_snd_subset (l : List Char) (d : String) :
    ∀ c ∈ (schemeSplit l d).2, c ∈ l := by
  simp only [schemeSplit]
  split
  · intro c hc
    exact (List.drop_sublist _ _).subset hc
  · intro c hc
    exact hc

theorem toLower_eq_self_of_not_upper (c : Char)
    (h : ¬(c.toNat ≥ 65 ∧ c.toNat ≤ 90)) : c.toLower = c := by
  unfold Char.toLower
  rw [if_neg h]

theorem toLower_noBr (c : Char) (h : c ≠ '[' ∧ c ≠ ']') :
    c.toLower ≠ '[' ∧ c.toLower ≠ ']' := by
  by_cases hc : c.toNat < 128
  · exact ascii_lift
      (fun c => (c ≠ '[' ∧ c ≠ ']') → (c.toLower ≠ '[' ∧ c.toLower ≠ ']'))
      (by decide) c hc h
  · rw [toLower_eq_self_of_not_upper c (by omega)]
    exact h

theorem schemeSplit_fst_noBr (l : List Char) (d : String)
    (hl : ∀ c ∈ l, c ≠ '[' ∧ c ≠ ']') (hd : noBr d) :
    noBr (schemeSplit l d).1 := by
  simp only [schemeSplit]
  split
  · intro c hc
    obtain ⟨c0, hc0, rfl⟩ := List.mem_map.1 hc
    have hc0l : c0 ∈ l := (List.takeWhile_sublist _).subset hc0
    exact toLower_noBr c0 (hl c0 hc0l)
  · exact hd

theorem netlocSplit_fst_subset (r : List Char) :
    ∀ c ∈ (netlocSplit r).1, c ∈ r := by
  simp only [netlocSplit]
  split
  · intro c hc
    exact (List.drop_sublist _ _).subset ((List.takeWhile_sublist _).subset hc)
  · intro c hc
    cases hc

theorem netlocSplit_snd_subset (r : List Char) :
    ∀ c ∈ (netlocSplit r).2, c ∈ r := by
  simp only [netlocSplit]
  split
  · intro c hc
    exact (List.drop_sublist _ _).subset ((List.dropWhile_sublist _).subset hc)
  · intro c hc
    exact hc

theorem splitOnceAfter_fst_subset (sep : Char) (l : List Char) :
    ∀ c ∈ (splitOnceAfter sep l).1, c ∈ l := by
  intro c hc
  exact (List.takeWhile_sublist _).subset hc

theorem splitOnceAfter_snd_subset (sep : Char) (l : List Char) :
    ∀ c ∈ (splitOnceAfter sep l).2, c ∈ l := by
  intro c hc
  exact (List.dropWhile_sublist _).subset ((List.drop_sublist _ _).subset hc)

theorem noBr_append {s t : String} (hs : noBr s) (ht : noBr t) :
    noBr (s ++ t) := by
  intro c hc
  rw [String.data_append] at hc
  rcases List.mem_append.1 hc with h | h
  · exact hs c h
  · exact ht c h

theorem urlsplit_total {url : String} (d : String) (hu : noBr url) :
    ∃ r, urlsplit url d = some r := by
  simp only [urlsplit]
  have h1 : '[' ∉ (netlocSplit (schemeSplit (removeTabsCRLF url) d).2).1 := by
    intro hmem
    have hs := removeTabsCRLF_subset url _
      (schemeSplit_snd_subset _ _ _ (netlocSplit_fst_subset _ _ hmem))
    exact (hu '[' hs).1 rfl
  have h2 : ']' ∉ (netlocSplit (schemeSplit (removeTabsCRLF url) d).2).1 := by
    intro hmem
    have hs := removeTabsCRLF_subset url _
      (schemeSplit_snd_subset _ _ _ (netlocSplit_fst_subset _ _ hmem))
    exact (hu ']' hs).2 rfl
  rw [if_pos (iff_of_false h1 h2)]
  exact ⟨_, rfl⟩

theorem urlsplit_noBr {url d : String} {r : SplitResult}
    (hs : noBr url) (hd : noBr d) (h : urlsplit url d = some r) :
    noBr r.scheme ∧ noBr r.netloc ∧ noBr r.path ∧ noBr r.query ∧ noBr r.fragment := by
  have hl : ∀ c ∈ removeTabsCRLF url, c ≠ '[' ∧ c ≠ ']' :=
    fun c hc => hs c (removeTabsCRLF_subset url c hc)
  simp only [urlsplit] at h
  split at h
  · simp only [Option.some.injEq] at h
    subst h
    refine ⟨schemeSplit_fst_noBr _ _ hl hd, ?_, ?_, ?_, ?_⟩
    · intro c hc
      exact hl c (schemeSplit_snd_subset _ _ _ (netlocSplit_fst_subset _ _ hc))
    · intro c hc
      exact hl c (schemeSplit_snd_subset _ _ _ (netlocSplit_snd_subset _ _
        (splitOnceAfter_fst_subset _ _ _ (splitOnceAfter_fst_subset _ _ _ hc))))
    · intro c hc
      exact hl c (schemeSplit_snd_subset _ _ _ (netlocSplit_snd_subset _ _
        (splitOnceAfter_fst_subset _ _ _ (splitOnceAfter_snd_subset _ _ _ hc))))
    · intro c hc
      exact hl c (schemeSplit_snd_subset _ _ _ (netlocSplit_snd_subset _ _
        (splitOnceAfter_snd_subset _ _ _ hc)))
  · cases h

theorem urlunsplit_noBr {r : SplitResult} (h1 : noBr r.scheme)
    (h2 : noBr r.netloc) (h3 : noBr r.path) (h4 : noBr r.query)
    (h5 : noBr r.fragment) : noBr (urlunsplit r) := by
  have hss : noBr "//" := by unfold noBr; decide
  have hsl : noBr "/" := by unfold noBr; decide
  have hco : noBr ":" := by unfold noBr; decide
  have hqm : noBr "?" := by unfold noBr; decide
  have hha : noBr "#" := by unfold noBr; decide
  simp only [urlunsplit]
  split_ifs <;>
    first
      | exact h3
      | (repeat'
          first
            | assumption
            | apply noBr_append)

theorem splitChar_ne_nil (sep : Char) : ∀ (l : List Char), splitChar sep l ≠ [] := by
  intro l
  induction l with
  | nil => simp [splitChar]
  | cons c rest ih =>
    by_cases hc : c = sep
    · simp [splitChar, hc]
    · simp only [splitChar, if_neg hc]
      cases hsp : splitChar sep rest with
      | nil => simp
      | cons h t => simp

theorem splitChar_sub (sep : Char) :
    ∀ (l : List Char) (p : List Char), p ∈ splitChar sep l → ∀ c ∈ p, c ∈ l := by
  intro l
  induction l with
  | nil =>
    intro p hp c hc
    simp only [splitChar, List.mem_singleton] at hp
    subst hp
    cases hc
  | cons a rest ih =>
    intro p hp c hc
    by_cases ha : a = sep
    · simp only [splitChar, if_pos ha, List.mem_cons] at hp
      rcases hp with rfl | hp
      · cases hc
      · exact List.mem_cons_of_mem _ (ih p hp c hc)
    · simp only [splitChar, if_neg ha] at hp
      cases hsp : splitChar sep rest with
      | nil => exact absurd hsp (splitChar_ne_nil sep rest)
      | cons h t =>
        rw [hsp] at hp
        rcases List.mem_cons.1 hp with rfl | hp'
        · rcases List.mem_cons.1 hc with rfl | hc'
          · exact List.mem_cons_self _ _
          · have : c ∈ h := hc'
            have hh : h ∈ splitChar sep rest := by rw [hsp]; exact List.mem_cons_self _ _
            exact List.mem_cons_of_mem _ (ih h hh c this)
        · have hh : p ∈ splitChar sep rest := by rw [hsp]; exact List.mem_cons_of_mem _ hp'
          exact List.mem_cons_of_mem _ (ih p hh c hc)

theorem joinChar_mem (sep : Char) :
    ∀ (ps : List (List Char)) (c : Char), c ∈ joinChar sep ps →
      c = sep ∨ ∃ p ∈ ps, c ∈ p := by
  intro ps
  induction ps with
  | nil => intro c hc; cases hc
  | cons x rest ih =>
    intro c hc
    cases rest with
    | nil =>
      simp only [joinChar] at hc
      exact Or.inr ⟨x, List.mem_cons_self _ _, hc⟩
    | cons y t =>
      simp only [joinChar] at hc
      rcases List.mem_append.1 hc with h | h
      · exact Or.inr ⟨x, List.mem_cons_self _ _, h⟩
      · rcases List.mem_cons.1 h with rfl | h'
        · exact Or.inl rfl
        · rcases ih c h' with h1 | ⟨p, hp, hcp⟩
          · exact Or.inl h1
          · exact Or.inr ⟨p, List.mem_cons_of_mem _ hp, hcp⟩

theorem filterMiddle_mem :
    ∀ (l : List (List Char)) (p : List Char), p ∈ filterMiddle l → p ∈ l := by
  intro l p hp
  match l with
  | [] => cases hp
  | [a] =>
    simp only [filterMiddle, List.mem_singleton] at hp
    subst hp
    exact List.mem_cons_self _ _
  | a :: b :: rest =>
    simp only [filterMiddle] at hp
    rcases List.mem_cons.1 hp with rfl | hp'
    · exact List.mem_cons_self _ _
    · rcases List.mem_append.1 hp' with h | h
      · have h1 := List.mem_of_mem_filter h
        exact List.mem_cons_of_mem _ ((List.dropLast_sublist _).subset h1)
      · simp only [List.mem_singleton] at h
        subst h
        exact List.mem_cons_of_mem _ (List.getLast_mem _)

theorem resolveSegments_mem :
    ∀ (segs acc : List (List Char)) (p : List Char),
      p ∈ segs.foldl
        (fun acc seg =>
          if seg = ['.', '.'] then acc.dropLast
          else if seg = ['.'] then acc
          else acc ++ [seg]) acc →
      p ∈ acc ∨ p ∈ segs := by
  intro segs
  induction segs with
  | nil => intro acc p hp; exact Or.inl hp
  | cons s rest ih =>
    intro acc p hp
    rw [List.foldl_cons] at hp
    rcases ih _ p hp with h | h
    · by_cases h1 : s = ['.', '.']
      · rw [if_pos h1] at h
        exact Or.inl ((List.dropLast_sublist _).subset h)
      · rw [if_neg h1] at h
        by_cases h2 : s = ['.']
        · rw [if_pos h2] at h
          exact Or.inl h
        · rw [if_neg h2] at h
          rcases List.mem_append.1 h with h3 | h3
          · exact Or.inl h3
          · simp only [List.mem_singleton] at h3
            subst h3
            exact Or.inr (List.mem_cons_self _ _)
    · exact Or.inr (List.mem_cons_of_mem _ h)

theorem resolvedSegs_mem (segs : List (List Char)) (p : List Char)
    (hp : p ∈ (if segs.getLast? = some ['.'] ∨ segs.getLast? = some ['.', '.']
      then resolveSegments segs ++ [[]] else resolveSegments segs)) :
    p ∈ segs ∨ p = [] := by
  split at hp
  · rcases List.mem_append.1 hp with h | h
    · rcases resolveSegments_mem segs [] p h with h1 | h1
      · cases h1
      · exact Or.inl h1
    · simp only [List.mem_singleton] at h
      exact Or.inr h
  · rcases resolveSegments_mem segs [] p hp with h1 | h1
    · cases h1
    · exact Or.inl h1

theorem joinPathMerge_mem (bp tp : List Char) (c : Char)
    (hc : c ∈ joinPathMerge bp tp) : c = '/' ∨ c ∈ bp ∨ c ∈ tp := by
  simp only [joinPathMerge] at hc
  rcases joinChar_mem '/' _ c hc with rfl | ⟨p, hp, hcp⟩
  · exact Or.inl rfl
  have hseg : ∀ q : List Char,
      q ∈ (if tp.take 1 = ['/'] then splitChar '/' tp
        else filterMiddle
          ((if (splitChar '/' bp).getLast? = some [] then splitChar '/' bp
            else (splitChar '/' bp).dropLast) ++ splitChar '/' tp)) →
      ∀ d ∈ q, d ∈ bp ∨ d ∈ tp := by
    intro q hq d hd
    split at hq
    · exact Or.inr (splitChar_sub '/' tp q hq d hd)
    · have hq2 := filterMiddle_mem _ q hq
      rcases List.mem_append.1 hq2 with h | h
      · have hq3 : q ∈ splitChar '/' bp := by
          revert h
          split
          · exact fun h => h
          · exact fun h => (List.dropLast_sublist _).subset h
        exact Or.inl (splitChar_sub '/' bp q hq3 d hd)
      · exact Or.inr (splitChar_sub '/' tp q h d hd)
  rcases resolvedSegs_mem _ p hp with h1 | h1
  · rcases hseg p h1 c hcp with h2 | h2
    · exact Or.inr (Or.inl h2)
    · exact Or.inr (Or.inr h2)
  · subst h1
    cases hcp

theorem urljoin_total_noBr {base url : String} (hb : noBr base) (hu : noBr url) :
    ∃ j, urljoin base url = some j ∧ noBr j := by
  have hnil : noBr "" := by intro c hc; cases hc
  by_cases h1 : base = ""
  · refine ⟨url, ?_, hu⟩
    simp [urljoin, h1]
  by_cases h2 : url = ""
  · refine ⟨base, ?_, hb⟩
    simp [urljoin, h1, h2]
  obtain ⟨b, hbs⟩ := urlsplit_total "" hb
  have hbf := urlsplit_noBr hb hnil hbs
  obtain ⟨t, hts⟩ := urlsplit_total b.scheme hu
  have htf := urlsplit_noBr hu hbf.1 hts
  by_cases h3 : t.scheme ≠ b.scheme ∨ t.scheme ∉ uses_relative
  · refine ⟨url, ?_, hu⟩
    simp only [urljoin, hbs, hts]
    rw [if_neg h1, if_neg h2, if_pos h3]
  by_cases h4 : t.scheme ∈ uses_netloc ∧ t.netloc ≠ ""
  · refine ⟨urlunsplit t, ?_,
      urlunsplit_noBr htf.1 htf.2.1 htf.2.2.1 htf.2.2.2.1 htf.2.2.2.2⟩
    simp only [urljoin, hbs, hts]
    rw [if_neg h1, if_neg h2, if_neg h3, if_pos h4]
  have hnet : noBr (if t.scheme ∈ uses_netloc then b.netloc else t.netloc) := by
    split
    · exact hbf.2.1
    · exact htf.2.1
  by_cases h5 : t.path = ""
  · refine ⟨urlunsplit ⟨t.scheme,
      (if t.scheme ∈ uses_netloc then b.netloc else t.netloc), b.path,
      (if t.query = "" then b.query else t.query), t.fragment⟩, ?_, ?_⟩
    · simp only [urljoin, hbs, hts]
      rw [if_neg h1, if_neg h2, if_neg h3, if_neg h4, if_pos h5]
    · refine urlunsplit_noBr htf.1 hnet hbf.2.2.1 ?_ htf.2.2.2.2
      dsimp only
      split
      · exact hbf.2.2.2.1
      · exact htf.2.2.2.1
  · have hpath2 : noBr (if joinPathMerge b.path.data t.path.data = []
        then "/" else (⟨joinPathMerge b.path.data t.path.data⟩ : String)) := by
      split
      · unfold noBr; decide
      · intro c hc
        rcases joinPathMerge_mem _ _ c hc with rfl | h | h
        · exact (by decide : ('/' : Char) ≠ '[' ∧ ('/' : Char) ≠ ']')
        · exact hbf.2.2.1 c h
        · exact htf.2.2.1 c h
    refine ⟨urlunsplit ⟨t.scheme,
      (if t.scheme ∈ uses_netloc then b.netloc else t.netloc),
      (if joinPathMerge b.path.data t.path.data = [] then "/"
        else (⟨joinPathMerge b.path.data t.path.data⟩ : String)),
      t.query, t.fragment⟩, ?_, ?_⟩
    · simp only [urljoin, hbs, hts]
      rw [if_neg h1, if_neg h2, if_neg h3, if_neg h4, if_neg h5]
    · exact urlunsplit_noBr htf.1 hnet hpath2 htf.2.2.2.1 htf.2.2.2.2

theorem is_safe_url_total {host t : String} (hh : noBr host) (ht : noBr t) :
    ∃ b, is_safe_url host t = some b := by
  obtain ⟨ref, href⟩ := urlsplit_total "" hh
  obtain ⟨j, hj, hjn⟩ := urljoin_total_noBr hh ht
  obtain ⟨tu, htu⟩ := urlsplit_total "" hjn
  refine ⟨decide ((tu.scheme = "http" ∨ tu.scheme = "https") ∧
    ref.netloc = tu.netloc), ?_⟩
  simp only [is_safe_url, href, hj, htu]

/-! ## Claim C3 -/

/-- Claim C3: with the request host `example.com` (Flask host URL
`http://example.com/`), the guard rejects the absolute URL
`http://evil.com/x` to a foreign host, accepts the relative path
`/profile`, and rejects the scheme-relative `//evil.com/x`; and in
general it returns true only if the target, joined against the host URL,
parses with scheme `http` or `https` and the same network location as the
current request. -/
theorem is_safe_url_examples_and_spec :
    is_safe_url "http://example.com/" "http://evil.com/x" = some false ∧
    is_safe_url "http://example.com/" "/profile" = some true ∧
    is_safe_url "http://example.com/" "//evil.com/x" = some false ∧
    (∀ h t : String, is_safe_url h t = some true →
      ∃ ref joined tu, urlsplit h "" = some ref ∧ urljoin h t = some joined ∧
        urlsplit joined "" = some tu ∧
        (tu.scheme = "http" ∨ tu.scheme = "https") ∧ ref.netloc = tu.netloc) := by
  refine ⟨by decide, by decide, by decide, ?_⟩
  intro h t hsafe
  cases hr : urlsplit h "" with
  | none => simp only [is_safe_url, hr] at hsafe; cases hsafe
  | some ref =>
    cases hj : urljoin h t with
    | none => simp only [is_safe_url, hr, hj] at hsafe; cases hsafe
    | some joined =>
      cases htu : urlsplit joined "" with
      | none => simp only [is_safe_url, hr, hj, htu] at hsafe; cases hsafe
      | some tu =>
        simp only [is_safe_url, hr, hj, htu, Option.some.injEq] at hsafe
        refine ⟨ref, joined, tu, rfl, rfl, htu, ?_, ?_⟩
        · exact (of_decide_eq_true hsafe).1
        · exact (of_decide_eq_true hsafe).2

/-- Witness for `is_safe_url_examples_and_spec` at the safe target
`/profile` on host `example.com`. -/
theorem is_safe_url_examples_and_spec_witness :
    ∃ ref joined tu, urlsplit "http://example.com/" "" = some ref ∧
      urljoin "http://example.com/" "/profile" = some joined ∧
      urlsplit joined "" = some tu ∧
      (tu.scheme = "http" ∨ tu.scheme = "https") ∧ ref.netloc = tu.netloc :=
  is_safe_url_examples_and_spec.2.2.2 "http://example.com/" "/profile" (by decide)

/-! ## Claim C4 -/

/-- Claim C4, counterexample: the malformed target `http://[::1/x` (an
unterminated IPv6 bracket, which Python's URL parser rejects with
`ValueError: Invalid IPv6 URL`) makes `is_safe_url` raise instead of
returning false — the guard has no exception handling — and the login
flow propagates the exception instead of falling back to the default
landing page. -/
theorem is_safe_url_parse_error_counterexample :
    is_safe_url "http://example.com/" "http://[::1/x" = none ∧
    nextRedirect "http://example.com/" (some "http://[::1/x") = none := by
  exact ⟨by decide, by decide⟩

/-- Claim C4, amended: Python's URL parser accepts almost every target, so
for every ASCII target without square brackets `is_safe_url` returns a
boolean rather than an error, and the login flow falls back to the default
landing page whenever that boolean is false; but for a target the parser
cannot parse (unmatched IPv6 bracket) `is_safe_url` raises `ValueError`,
and the login flow propagates the error instead of falling back.  (The
ASCII restriction keeps the embedding aligned with CPython, whose
additional non-ASCII network-location checks are not modelled.) -/
theorem redirect_guard_malformed_behaviour :
    (∀ host t : String, (∀ c ∈ t.data, c.toNat < 128) →
      noBr host → noBr t → ∃ b, is_safe_url host t = some b) ∧
    (∀ host t : String, is_safe_url host t = some false → t ≠ "" →
      nextRedirect host (some t) = some "/") ∧
    (∀ host t : String, is_safe_url host t = none → t ≠ "" →
      nextRedirect host (some t) = none) := by
  refine ⟨?_, ?_, ?_⟩
  · intro host t _ hh ht
    exact is_safe_url_total hh ht
  · intro host t hfalse hne
    simp only [nextRedirect, if_neg hne, hfalse]
  · intro host t hnone hne
    simp only [nextRedirect, if_neg hne, hnone]

/-- Witness for `redirect_guard_malformed_behaviour`: the ASCII,
bracket-free target `/anywhere?q=1` produces a boolean, and the unsafe
target `http://evil.com/` falls back to the landing page. -/
theorem redirect_guard_malformed_behaviour_witness :
    (∃ b, is_safe_url "http://example.com/" "/anywhere?q=1" = some b) ∧
    nextRedirect "http://example.com/" (some "http://evil.com/") = some "/" :=
  ⟨redirect_guard_malformed_behaviour.1 "http://example.com/" "/anywhere?q=1"
      (by decide) (by intro c hc; revert c; decide) (by intro c hc; revert c; decide),
    redirect_guard_malformed_behaviour.2.1 "http://example.com/" "http://evil.com/"
      (by decide) (by decide)⟩

/-! ## Claim C8 -/

/-- Claim C8: a signup whose email already belongs to a stored user leaves
the user table unchanged, shows a user-visible error, and creates no
record — the duplicate check of `signup` in both variants (and the
`SignupForm.validate_email` hook of the anuncio variant) guards the only
path that inserts a user. -/
theorem signup_duplicate_email (users : List String) (email : String)
    (h : email ∈ users) :
    signupStep users email = (users, true, false) := by
  unfold signupStep
  rw [if_pos h]

/-- Witness for `signup_duplicate_email` at a concrete duplicate email. -/
theorem signup_duplicate_email_witness :
    signupStep ["ana@mail.com", "luis@mail.com"] "luis@mail.com" =
      (["ana@mail.com", "luis@mail.com"], true, false) :=
  signup_duplicate_email ["ana@mail.com", "luis@mail.com"] "luis@mail.com"
    (by decide)

/-! ## Claim C9 -/

/-- Claim C9: in both variants a failed login produces the same
user-visible response whether the email is unknown or the email exists
with a wrong password — the code handles both causes in one branch
(`if user is None or not user.check_password(...)` in anuncio,
`if user and user.check_password(...) ... else` in asset_manager), so the
two failure runs are indistinguishable to the client. -/
theorem login_failure_indistinguishable
    (users : List (String × String)) (e1 p1 e2 p2 : String) (r1 r2 : Bool)
    (u : String × String)
    (h1 : lookupUser users e1 = none)
    (h2 : lookupUser users e2 = some u) (h3 : u.2 ≠ p2) :
    anuncioLogin users e1 p1 r1 = anuncioLogin users e2 p2 r2 ∧
    amLogin users e1 p1 r1 = amLogin users e2 p2 r2 := by
  constructor
  · simp [anuncioLogin, h1, h2, h3]
  · simp [amLogin, h1, h2, h3]

/-- Witness for `login_failure_indistinguishable`: unknown email
`who@mail.com` versus wrong password for stored `ana@mail.com`. -/
theorem login_failure_indistinguishable_witness :
    anuncioLogin [("ana@mail.com", "s3cret")] "who@mail.com" "x" false =
      anuncioLogin [("ana@mail.com", "s3cret")] "ana@mail.com" "wrong" true ∧
    amLogin [("ana@mail.com", "s3cret")] "who@mail.com" "x" false =
      amLogin [("ana@mail.com", "s3cret")] "ana@mail.com" "wrong" true :=
  login_failure_indistinguishable [("ana@mail.com", "s3cret")]
    "who@mail.com" "x" "ana@mail.com" "wrong" false true
    ("ana@mail.com", "s3cret") (by decide) (by decide) (by decide)

/-! ## Claim C10 -/

/-- Claim C10: in both variants `get_all` returns the stored assets sorted
by creation timestamp in descending order — the result is a permutation
of the stored rows in which every row's timestamp is at least the
timestamp of every later row (newest first). -/
theorem get_all_sorted_desc (rows : List AssetRow) :
    List.Perm (get_all rows) rows ∧
    (get_all rows).Pairwise (fun a b => b.timestamp ≤ a.timestamp) := by
  refine ⟨List.mergeSort_perm rows _, ?_⟩
  have h : (get_all rows).Pairwise
      (fun a b : AssetRow => (decide (b.timestamp ≤ a.timestamp)) = true) := by
    apply List.sorted_mergeSort
    · intro a b c hab hbc
      simp only [decide_eq_true_eq] at *
      omega
    · intro a b
      simp only [Bool.or_eq_true, decide_eq_true_eq]
      omega
  exact h.imp (fun hab => by simpa using hab)
